import Mathlib

/-!
# Verification of `NGIN::Containers::String` (SBO string) and `NGIN::Utilities::LSBFlag`

Shallow embedding of the NGIN-Lib small-buffer-optimized string container
(`String.hpp`) and the value+flag bit-packing utility (`LSBFlag.hpp`).

Modelling conventions:
* A byte cell in a buffer is `Option Nat`: `none` models an uninitialized byte
  (`new char[n]` yields indeterminate contents), `some b` an initialized byte `b`.
* A C-string argument (`const char*`) is `Option (List Nat)`: `none` is a null
  pointer, `some bs` a NUL-terminated sequence whose non-terminator bytes are `bs`
  (so `strlen` is `bs.length`; faithfulness requires `0 ∉ bs`).
* Heap blocks are identified by an allocation id (`Nat`); every operation that
  calls `new char[]` threads a fresh-id counter `σ` and returns the bumped counter.
  Distinct ids model distinct pointers; `none` as a data pointer models `nullptr`.
* `std::size_t` arithmetic is modelled on `Nat` without the `mod 2^64` wrap: every
  length reachable by the container is bounded by allocatable memory, far below
  `2^63`, where the `LSBFlag<std::size_t>` shift formulas are exact.  The
  standalone `LSBFlag` component is modelled bit-exactly with an explicit width.
* The union's shared-discriminant bit: the code branches on `IsSmall()`, the flag
  bit of the control word; all writes keep that bit consistent with the active
  layout, so the union is embedded as a tagged sum whose tag carries the raw
  flag words, and `IsSmall` reads the flag bit of the active layout's word.
-/

namespace NGIN.Utilities

/-- Raw word of `LSBFlag<T>` for a `w`-bit unsigned `T`, as a natural `< 2^w`. -/
structure LSBFlag (w : Nat) where
  data : Nat

/-- `LSBFlag<T>::LSBFlag(T value, bool flag)`: stores `(value << 1) | flag`.
The shift is done in `T`, so it wraps modulo `2^w`. -/
def LSBFlag.init (w : Nat) (value : Nat) (flag : Bool) : LSBFlag w :=
  ⟨((value <<< 1) % 2 ^ w) ||| flag.toNat⟩

/-- `LSBFlag<T>::GetValue()`: `data >> 1`. -/
def LSBFlag.GetValue {w : Nat} (f : LSBFlag w) : Nat :=
  f.data >>> 1

/-- `LSBFlag<T>::GetFlag()`: `static_cast<bool>(data & 1)`. -/
def LSBFlag.GetFlag {w : Nat} (f : LSBFlag w) : Bool :=
  f.data &&& 1 != 0

/-- `LSBFlag<T>::GetRaw()`. -/
def LSBFlag.GetRaw {w : Nat} (f : LSBFlag w) : Nat :=
  f.data

end NGIN.Utilities

namespace NGIN.Containers

/-- One byte of a character buffer; `none` is an uninitialized byte. -/
abbrev Cell := Option Nat

/-- The raw word `(value << 1) | flag` of an `LSBFlag` field of the string.
Sizes are modelled on `Nat` (see the header comment), so no wrap is applied:
the small-layout word stays below `2^8` and the size word below `2^64` in all
reachable states. -/
def lsbRaw (value : Nat) (flag : Bool) : Nat :=
  (value <<< 1) ||| flag.toNat

/-- `GetValue()` of a raw flag word: `data >> 1`. -/
def lsbValue (data : Nat) : Nat :=
  data >>> 1

/-- `GetFlag()` of a raw flag word: `data & 1` as a boolean. -/
def lsbFlagOf (data : Nat) : Bool :=
  data &&& 1 != 0

/-- `memcpy(dst + offset, src, src.length)` on buffers of cells. -/
def memcpyAt (dst : List Cell) (offset : Nat) (src : List Cell) : List Cell :=
  dst.take offset ++ src ++ dst.drop (offset + src.length)

/-- The `len + 1` bytes of the C string `s` (content plus NUL terminator),
as written by `memcpy(dst, str, len + 1)`. -/
def strBytes (s : List Nat) : List Cell :=
  s.map some ++ [some 0]

/-- Reading a buffer as a C string: the bytes before the first NUL.  The result
is `none` when the scan hits an uninitialized cell or falls off the end of the
buffer before a terminator (an invalid read in the C program). -/
def takeCStr : List Cell → Option (List Nat)
  | [] => none
  | none :: _ => none
  | some 0 :: _ => some []
  | some (b + 1) :: rest => (takeCStr rest).map (fun t => (b + 1) :: t)

/-- `static constexpr std::size_t sboSize = 48`. -/
def sboSize : Nat := 48

/-- `NGIN::Containers::String`: the storage union as a tagged sum.
`small` is `SmallStorage` (`sboBuffer[47]` and the raw byte of
`remainingSizeFlag`); `normal` is `NormalStorage` (`data` pointer — `none` for
`nullptr`, `some id` for a heap block, whose cells are carried alongside —
`capacity`, and the raw word of `sizeFlag`). -/
inductive String where
  | small (sboBuffer : List Cell) (remainingSizeFlag : Nat)
  | normal (data : Option Nat) (blk : List Cell) (capacity : Nat) (sizeFlag : Nat)
deriving DecidableEq

/-- `String::IsSmall()`: the flag bit of the control word of the active layout. -/
def String.IsSmall : String → Bool
  | .small _ rs => lsbFlagOf rs
  | .normal _ _ _ sz => lsbFlagOf sz

/-- `String::GetSize()`: `(sboSize - 1) - remaining` in SBO mode, else the
value of `sizeFlag`. -/
def String.GetSize : String → Nat
  | .small _ rs => (sboSize - 1) - lsbValue rs
  | .normal _ _ _ sz => lsbValue sz

/-- What `String::CStr()` returns, as a pointer value. -/
inductive CPtr where
  | sboPtr
  | heapPtr (a : Nat)
  | nullPtr
deriving DecidableEq

/-- `String::CStr()`: `IsSmall() ? buffer.small.sboBuffer : buffer.normal.data`. -/
def String.CStr : String → CPtr
  | .small _ _ => .sboPtr
  | .normal (some a) _ _ _ => .heapPtr a
  | .normal none _ _ _ => .nullPtr

/-- The text reachable through `CStr()`: the bytes before the first NUL of the
active buffer, or `none` when `CStr()` is null or the read is invalid. -/
def String.CStrText : String → Option (List Nat)
  | .small sbo _ => takeCStr sbo
  | .normal (some _) blk _ _ => takeCStr blk
  | .normal none _ _ _ => none

/-- The first `n` bytes reachable through `s.CStr()`, as read by
`memcpy(dst, s.CStr(), n)`; reading through a null pointer yields junk. -/
def String.readBuf (s : String) (n : Nat) : List Cell :=
  match s with
  | .small sbo _ => sbo.take n
  | .normal (some _) blk _ _ => blk.take n
  | .normal none _ _ _ => List.replicate n none

/-- `String::~String` frees iff `!IsSmall() && buffer.normal.data != nullptr`. -/
def String.destructorFrees : String → Bool
  | .small _ _ => false
  | .normal p _ _ _ => p.isSome

/-- The `capacity` field (`none` in SBO mode). -/
def String.capacityOf : String → Option Nat
  | .small _ _ => none
  | .normal _ _ cap _ => some cap

/-- `String::String()`: zero the union, set `remainingSizeFlag = (47, true)`,
write the terminator at offset 0. -/
def String.mkEmpty : String :=
  .small (memcpyAt (List.replicate (sboSize - 1) (some 0)) 0 [some 0])
    (lsbRaw (sboSize - 1) true)

/-- `String::String(const char* str)`: null behaves as empty; a sequence of
length `< sboSize - 1` is stored inline; otherwise a heap block of exactly
`len + 1` bytes is allocated (fresh id `σ`) and filled. -/
def String.fromCStr (str : Option (List Nat)) (σ : Nat) : String × Nat :=
  match str with
  | none =>
    (.small (memcpyAt (List.replicate (sboSize - 1) (some 0)) 0 [some 0])
      (lsbRaw (sboSize - 1) true), σ)
  | some s =>
    let len := s.length
    if len < sboSize - 1 then
      (.small (memcpyAt (List.replicate (sboSize - 1) (some 0)) 0 (strBytes s))
        (lsbRaw ((sboSize - 1) - len) true), σ)
    else
      (.normal (some σ) (memcpyAt (List.replicate (len + 1) none) 0 (strBytes s))
        (len + 1) (lsbRaw len false), σ + 1)

/-- `String::String(const String& other)`: SBO sources are copied as a whole
union; Large sources get a fresh block of the source's capacity holding the
first `len + 1` bytes of the source's data. -/
def String.copyCtor (other : String) (σ : Nat) : String × Nat :=
  match other with
  | .small sbo rs => (.small sbo rs, σ)
  | .normal p blk cap sz =>
    let len := lsbValue sz
    (.normal (some σ)
      (memcpyAt (List.replicate cap none) 0 ((String.normal p blk cap sz).readBuf (len + 1)))
      cap (lsbRaw len false), σ + 1)

/-- `String::operator=(const String&)` on distinct objects: frees the old block,
re-zeroes, then performs exactly the copy-constructor writes.  (The identity
check makes self-assignment a no-op before any of this runs.) -/
def String.copyAssign (_self other : String) (σ : Nat) : String × Nat :=
  String.copyCtor other σ

/-- `String::String(String&& other)`: returns (destination, moved-from source).
SBO sources are copied; Large sources hand over pointer/data/capacity and are
reset to `(nullptr, 0, Set(0, false))`. -/
def String.moveCtor (other : String) : String × String :=
  match other with
  | .small sbo rs => (.small sbo rs, .small sbo rs)
  | .normal p blk cap sz =>
    let len := lsbValue sz
    (.normal p blk cap (lsbRaw len false),
     .normal none [] 0 (lsbRaw 0 false))

/-- `String::operator=(String&&)` on distinct objects: frees the old block,
re-zeroes, then performs exactly the move-constructor writes (the identity
check makes self-move a no-op before any of this runs). -/
def String.moveAssign (_self other : String) : String × String :=
  String.moveCtor other

/-- `String::ReallocateAndCopy(newCapacity, currentSize)`: allocate a fresh
block (id `σ`) of `newCapacity` bytes, copy exactly the first `currentSize`
bytes of the active buffer, free the old block, set
`sizeFlag = (currentSize, heap)`. -/
def String.ReallocateAndCopy (self : String) (newCapacity currentSize σ : Nat) : String :=
  .normal (some σ)
    (memcpyAt (List.replicate newCapacity none) 0 (self.readBuf currentSize))
    newCapacity (lsbRaw currentSize false)

/-- `String::Append(const char* str)`: null or empty input returns at once;
otherwise the SBO fit/spill and heap fit/spill paths of the source, each
followed by `sizeFlag.Set(totalSize, false)` when the result is on the heap. -/
def String.AppendCStr (self : String) (str : Option (List Nat)) (σ : Nat) : String × Nat :=
  match str with
  | none => (self, σ)
  | some s =>
    if s.length = 0 then (self, σ)
    else
      let appendSize := s.length
      let currentSize := self.GetSize
      let totalSize := currentSize + appendSize
      match self with
      | .small sbo rs =>
        let remaining := lsbValue rs
        if appendSize < remaining then
          (.small (memcpyAt sbo currentSize (strBytes s))
            (lsbRaw (remaining - appendSize) true), σ)
        else
          match (String.small sbo rs).ReallocateAndCopy (totalSize * 2 + 1) currentSize σ with
          | .normal p blk cap _ =>
            (.normal p (memcpyAt blk currentSize (strBytes s)) cap (lsbRaw totalSize false),
              σ + 1)
          | .small sbo1 rs1 => (.small sbo1 rs1, σ + 1)
      | .normal p blk cap sz =>
        if totalSize + 1 > cap then
          match (String.normal p blk cap sz).ReallocateAndCopy (totalSize * 2 + 1) currentSize σ with
          | .normal p1 blk1 cap1 _ =>
            (.normal p1 (memcpyAt blk1 currentSize (strBytes s)) cap1 (lsbRaw totalSize false),
              σ + 1)
          | .small sbo1 rs1 => (.small sbo1 rs1, σ + 1)
        else
          (.normal p (memcpyAt blk currentSize (strBytes s)) cap (lsbRaw totalSize false), σ)

/-- `String::Append(const String& other)` for `other` a distinct object: the
incoming bytes are the first `otherSize + 1` bytes of `other`'s buffer (its
content plus terminator); no empty-input early return exists in this overload. -/
def String.AppendStr (self other : String) (σ : Nat) : String × Nat :=
  let currentSize := self.GetSize
  let otherSize := other.GetSize
  let totalSize := currentSize + otherSize
  match self with
  | .small sbo rs =>
    let remaining := lsbValue rs
    if otherSize < remaining then
      (.small (memcpyAt sbo currentSize (other.readBuf (otherSize + 1)))
        (lsbRaw (remaining - otherSize) true), σ)
    else
      match (String.small sbo rs).ReallocateAndCopy (totalSize * 2 + 1) currentSize σ with
      | .normal p blk cap _ =>
        (.normal p (memcpyAt blk currentSize (other.readBuf (otherSize + 1))) cap
          (lsbRaw totalSize false), σ + 1)
      | .small sbo1 rs1 => (.small sbo1 rs1, σ + 1)
  | .normal p blk cap sz =>
    if totalSize + 1 > cap then
      match (String.normal p blk cap sz).ReallocateAndCopy (totalSize * 2 + 1) currentSize σ with
      | .normal p1 blk1 cap1 _ =>
        (.normal p1 (memcpyAt blk1 currentSize (other.readBuf (otherSize + 1))) cap1
          (lsbRaw totalSize false), σ + 1)
      | .small sbo1 rs1 => (.small sbo1 rs1, σ + 1)
    else
      (.normal p (memcpyAt blk currentSize (other.readBuf (otherSize + 1))) cap
        (lsbRaw totalSize false), σ)

/-- The aliased call `x.Append(x)` (self-append).  It differs from
`AppendStr x x` in exactly the ways aliasing makes it differ:
after `ReallocateAndCopy` has replaced `this->buffer.normal.data`,
`other.CStr()` denotes the *new* block, whose byte at `currentSize` was never
initialized (only `currentSize` bytes were copied); and the in-place
`memcpy` calls overlap their source and destination in one byte (the old
terminator position), modelled here with load-before-store (`memmove`)
semantics — the most charitable reading of the overlapping `memcpy`. -/
def String.AppendSelf (self : String) (σ : Nat) : String × Nat :=
  let currentSize := self.GetSize
  let otherSize := currentSize
  let totalSize := currentSize + otherSize
  match self with
  | .small sbo rs =>
    let remaining := lsbValue rs
    if otherSize < remaining then
      (.small (memcpyAt sbo currentSize (sbo.take (otherSize + 1)))
        (lsbRaw (remaining - otherSize) true), σ)
    else
      match (String.small sbo rs).ReallocateAndCopy (totalSize * 2 + 1) currentSize σ with
      | .normal p blk cap _ =>
        (.normal p (memcpyAt blk currentSize (blk.take (otherSize + 1))) cap
          (lsbRaw totalSize false), σ + 1)
      | .small sbo1 rs1 => (.small sbo1 rs1, σ + 1)
  | .normal p blk cap sz =>
    if totalSize + 1 > cap then
      match (String.normal p blk cap sz).ReallocateAndCopy (totalSize * 2 + 1) currentSize σ with
      | .normal p1 blk1 cap1 _ =>
        (.normal p1 (memcpyAt blk1 currentSize (blk1.take (otherSize + 1))) cap1
          (lsbRaw totalSize false), σ + 1)
      | .small sbo1 rs1 => (.small sbo1 rs1, σ + 1)
    else
      (.normal p (memcpyAt blk currentSize (blk.take (otherSize + 1))) cap
        (lsbRaw totalSize false), σ)

/-- The byte at offset `GetSize()` of the active buffer is a NUL terminator
(false when `CStr()` is a null pointer: there is no byte to read). -/
def String.NullTerm : String → Bool
  | .small sbo rs => sbo.getD ((sboSize - 1) - lsbValue rs) none == some 0
  | .normal p blk _ sz => p.isSome && (blk.getD (lsbValue sz) none == some 0)

/-- Structural well-formedness of a string state: correct buffer extent,
size within bounds, and a terminator at offset `GetSize()`. -/
def String.WF : String → Prop
  | .small sbo rs =>
    sbo.length = sboSize - 1 ∧ 1 ≤ lsbValue rs ∧ lsbValue rs ≤ sboSize - 1 ∧
      sbo.getD ((sboSize - 1) - lsbValue rs) none = some 0
  | .normal p blk cap sz =>
    p.isSome = true ∧ blk.length = cap ∧ lsbValue sz + 1 ≤ cap ∧
      blk.getD (lsbValue sz) none = some 0

instance (s : String) : Decidable s.WF := by
  cases s <;> · dsimp [String.WF]; infer_instance

/-! ## Bit-level bridge lemmas -/

theorem or_toNat (v : Nat) (b : Bool) : (2 * v) ||| b.toNat = 2 * v + b.toNat := by
  cases b
  · simp
  · have h := Nat.lor_bit false v true 0
    simpa [Nat.bit, two_mul] using h

theorem lsbValue_lsbRaw (v : Nat) (b : Bool) : lsbValue (lsbRaw v b) = v := by
  unfold lsbValue lsbRaw
  rw [Nat.shiftLeft_eq, Nat.shiftRight_eq_div_pow, pow_one, Nat.mul_comm, or_toNat]
  cases b <;> simp <;> omega

theorem lsbFlagOf_lsbRaw (v : Nat) (b : Bool) : lsbFlagOf (lsbRaw v b) = b := by
  unfold lsbFlagOf lsbRaw
  rw [Nat.and_one_is_mod, Nat.shiftLeft_eq, pow_one, Nat.mul_comm, or_toNat]
  cases b <;> simp [Nat.add_mul_mod_self_left] <;> omega

/-! ## Buffer lemmas -/

theorem strBytes_length (s : List Nat) : (strBytes s).length = s.length + 1 := by
  simp [strBytes]

theorem strBytes_append (a b : List Nat) :
    strBytes (a ++ b) = a.map some ++ strBytes b := by
  simp [strBytes]

theorem memcpyAt_length {dst src : List Cell} {o : Nat}
    (h : o + src.length ≤ dst.length) :
    (memcpyAt dst o src).length = dst.length := by
  simp only [memcpyAt, List.length_append, List.length_take, List.length_drop]
  omega

theorem memcpyAt_zero (dst src : List Cell) :
    memcpyAt dst 0 src = src ++ dst.drop src.length := by
  simp [memcpyAt]

theorem memcpyAt_zero_replicate (n : Nat) (c : Cell) (src : List Cell) :
    memcpyAt (List.replicate n c) 0 src = src ++ List.replicate (n - src.length) c := by
  rw [memcpyAt_zero, List.drop_replicate]

theorem memcpyAt_full {dst src : List Cell} (h : src.length = dst.length) :
    memcpyAt dst 0 src = src := by
  rw [memcpyAt_zero, h, List.drop_length, List.append_nil]

/-- Reading inside the copied region of a `memcpyAt`. -/
theorem memcpyAt_getD_src {dst src : List Cell} {o i : Nat} (d : Cell)
    (h₀ : o ≤ dst.length) (h₁ : i < src.length) :
    (memcpyAt dst o src).getD (o + i) d = src.getD i d := by
  have ht : (dst.take o).length = o := by simp; omega
  simp only [memcpyAt, List.getD_eq_getElem?_getD, List.append_assoc]
  rw [List.getElem?_append_right (by omega), ht]
  rw [List.getElem?_append_left (by omega)]
  simp

theorem take_strBytes_append (s : List Nat) (R : List Cell) :
    ((strBytes s ++ R).take s.length) = s.map some := by
  rw [List.take_append_of_le_length (by simp [strBytes])]
  unfold strBytes
  rw [List.take_append_of_le_length (by simp), List.take_of_length_le (by simp)]

theorem drop_strBytes_append (s : List Nat) (R : List Cell) (k : Nat) :
    ((strBytes s ++ R).drop (s.length + 1 + k)) = R.drop k := by
  have h : s.length + 1 + k = (strBytes s).length + k := by simp [strBytes]
  rw [h, List.drop_append]

theorem takeCStr_strBytes_append {s : List Nat} (h : ∀ x ∈ s, x ≠ 0) (R : List Cell) :
    takeCStr (strBytes s ++ R) = some s := by
  induction s with
  | nil => simp [strBytes, takeCStr]
  | cons x t ih =>
    have hx : x ≠ 0 := h x (by simp)
    obtain ⟨y, rfl⟩ : ∃ y, x = y + 1 := ⟨x - 1, by omega⟩
    have ht : ∀ z ∈ t, z ≠ 0 := fun z hz => h z (by simp [hz])
    have hstep : strBytes ((y + 1) :: t) ++ R = some (y + 1) :: (strBytes t ++ R) := by
      simp [strBytes]
    rw [hstep]
    simp only [takeCStr, ih ht]
    rfl

/-- Two buffers that agree on their first `n + 1` cells and hold a terminator at
index `n` read as the same C string. -/
theorem takeCStr_eq_of_take_eq {l₁ l₂ : List Cell} {n : Nat}
    (hl : n < l₁.length) (he : l₁.take (n + 1) = l₂.take (n + 1))
    (hz : l₁.getD n none = some 0) :
    takeCStr l₁ = takeCStr l₂ := by
  induction n generalizing l₁ l₂ with
  | zero =>
    cases l₁ with
    | nil => simp at hl
    | cons c₁ t₁ =>
      cases l₂ with
      | nil => simp at he
      | cons c₂ t₂ =>
        simp only [List.take_succ_cons, List.take_zero] at he
        injection he with h1 _
        subst h1
        have hz' : c₁ = some 0 := by simpa [List.getD] using hz
        subst hz'
        rfl
  | succ m ih =>
    cases l₁ with
    | nil => simp at hl
    | cons c₁ t₁ =>
      cases l₂ with
      | nil => simp at he
      | cons c₂ t₂ =>
        simp only [List.take_succ_cons] at he
        injection he with h1 h2
        subst h1
        have htail := @ih t₁ t₂ (by simpa using hl) h2
          (by simpa [List.getD] using hz)
        cases c₁ with
        | none => rfl
        | some b =>
          cases b with
          | zero => rfl
          | succ k => simp only [takeCStr, htail]

/-! ## State-shape lemmas for the constructors -/

theorem GetSize_small (sbo : List Cell) (rs : Nat) :
    (String.small sbo rs).GetSize = 47 - lsbValue rs := rfl

theorem GetSize_normal (p : Option Nat) (blk : List Cell) (cap sz : Nat) :
    (String.normal p blk cap sz).GetSize = lsbValue sz := rfl

theorem fromCStr_small {s : List Nat} (σ : Nat) (h : s.length < 47) :
    String.fromCStr (some s) σ =
      (.small (strBytes s ++ List.replicate (46 - s.length) (some 0))
        (lsbRaw (47 - s.length) true), σ) := by
  have h46 : 47 - (s.length + 1) = 46 - s.length := by omega
  simp only [String.fromCStr, sboSize]
  rw [if_pos (by omega)]
  rw [memcpyAt_zero_replicate, strBytes_length, h46]

theorem fromCStr_large {s : List Nat} (σ : Nat) (h : 47 ≤ s.length) :
    String.fromCStr (some s) σ =
      (.normal (some σ) (strBytes s) (s.length + 1) (lsbRaw s.length false), σ + 1) := by
  simp only [String.fromCStr, sboSize]
  rw [if_neg (by omega)]
  rw [memcpyAt_full (by simp [strBytes_length])]

/-- C2 helper: the two constructor branches for null and for the empty string
build identical states. -/
theorem fromCStr_none_eq_empty (σ : Nat) :
    (String.fromCStr none σ).1 = (String.fromCStr (some []) σ).1 := rfl

theorem CStrText_of_fromCStr {s : List Nat} (σ : Nat) (h : ∀ x ∈ s, x ≠ 0) :
    (String.fromCStr (some s) σ).1.CStrText = some s := by
  by_cases hlen : s.length < 47
  · rw [fromCStr_small σ hlen]
    exact takeCStr_strBytes_append h _
  · rw [fromCStr_large σ (by omega)]
    show takeCStr (strBytes s) = some s
    rw [← List.append_nil (strBytes s)]
    exact takeCStr_strBytes_append h _

theorem GetSize_of_fromCStr (s : List Nat) (σ : Nat) :
    (String.fromCStr (some s) σ).1.GetSize = s.length := by
  by_cases hlen : s.length < 47
  · rw [fromCStr_small σ hlen]
    rw [GetSize_small, lsbValue_lsbRaw]
    omega
  · rw [fromCStr_large σ (by omega)]
    rw [GetSize_normal, lsbValue_lsbRaw]

/-- C2: for every byte sequence `s`, constructing a `String` from `s` gives
`GetSize()` equal to the length of `s` and `CStr()` textually equal to `s`;
a null source produces, with no error, exactly the state produced by an empty
sequence — the empty SBO string. -/
theorem claim_C2_construct_faithful (s : List Nat) (σ : Nat) (h : ∀ x ∈ s, x ≠ 0) :
    (String.fromCStr (some s) σ).1.GetSize = s.length ∧
    (String.fromCStr (some s) σ).1.CStrText = some s ∧
    (String.fromCStr none σ).1 = (String.fromCStr (some []) σ).1 ∧
    (String.fromCStr none σ).1.GetSize = 0 ∧
    (String.fromCStr none σ).1.CStrText = some [] :=
  ⟨GetSize_of_fromCStr s σ, CStrText_of_fromCStr σ h,
   fromCStr_none_eq_empty σ, rfl, rfl⟩

/-- C2 witness at `s = "Hi"` (bytes `[72, 105]`). -/
theorem claim_C2_witness :
    (∀ x ∈ [72, 105], x ≠ 0) ∧
    ((String.fromCStr (some [72, 105]) 0).1.GetSize = [72, 105].length ∧
     (String.fromCStr (some [72, 105]) 0).1.CStrText = some [72, 105] ∧
     (String.fromCStr none 0).1 = (String.fromCStr (some []) 0).1 ∧
     (String.fromCStr none 0).1.GetSize = 0 ∧
     (String.fromCStr none 0).1.CStrText = some []) :=
  ⟨by decide, claim_C2_construct_faithful [72, 105] 0 (by decide)⟩

/-- C5: constructing from a sequence of length exactly `ThresholdBytes - 2 = 46`
stays Small; length `ThresholdBytes - 1 = 47` or more becomes Large with a heap
block of exactly `length + 1` bytes and capacity `length + 1` (no slack). -/
theorem claim_C5_mode_boundary (s : List Nat) (σ : Nat) :
    (s.length = 46 → (String.fromCStr (some s) σ).1.IsSmall = true) ∧
    (47 ≤ s.length →
      (String.fromCStr (some s) σ).1.IsSmall = false ∧
      (String.fromCStr (some s) σ).1 =
        .normal (some σ) (strBytes s) (s.length + 1) (lsbRaw s.length false)) := by
  constructor
  · intro h46
    rw [fromCStr_small σ (by omega)]
    show lsbFlagOf (lsbRaw (47 - s.length) true) = true
    exact lsbFlagOf_lsbRaw _ _
  · intro h47
    rw [fromCStr_large σ h47]
    exact ⟨lsbFlagOf_lsbRaw _ _, rfl⟩

/-! ## Append shape lemmas -/

/-- The heap block built by a growth append: `ReallocateAndCopy` copies the
`a.length` live bytes into a fresh `total * 2 + 1` block, then the incoming
bytes plus terminator land at offset `a.length`; the tail stays uninitialized. -/
theorem spill_blk (a b : List Nat) :
    memcpyAt (memcpyAt (List.replicate ((a.length + b.length) * 2 + 1) none) 0 (a.map some))
      a.length (strBytes b)
      = strBytes (a ++ b) ++ List.replicate (a.length + b.length) none := by
  rw [memcpyAt_zero_replicate]
  unfold memcpyAt
  rw [List.take_left' (by simp)]
  rw [show a.length + (strBytes b).length = (a.map some).length + (b.length + 1) by
    simp [strBytes_length]]
  rw [List.drop_append, List.drop_replicate]
  rw [show (a.length + b.length) * 2 + 1 - (List.map some a).length - (b.length + 1)
      = a.length + b.length by simp; omega]
  rw [strBytes_append, List.append_assoc]

theorem memcpyAt_strBytes_fit (a b : List Nat) (R : List Cell) :
    memcpyAt (strBytes a ++ R) a.length (strBytes b) = strBytes (a ++ b) ++ R.drop b.length := by
  unfold memcpyAt
  rw [take_strBytes_append]
  rw [show a.length + (strBytes b).length = a.length + 1 + b.length by
    simp [strBytes_length]; omega]
  rw [drop_strBytes_append]
  rw [strBytes_append, List.append_assoc]

theorem appendCStr_small_fit {a b : List Nat} (σ : Nat) (hn : a.length < 47)
    (hb0 : ¬ b.length = 0) (hfit : b.length < 47 - a.length) :
    String.AppendCStr (.small (strBytes a ++ List.replicate (46 - a.length) (some 0))
        (lsbRaw (47 - a.length) true)) (some b) σ =
      (.small (strBytes (a ++ b) ++ List.replicate (46 - a.length - b.length) (some 0))
        (lsbRaw ((47 - a.length) - b.length) true), σ) := by
  simp only [String.AppendCStr]
  rw [if_neg hb0]
  simp only [GetSize_small, lsbValue_lsbRaw]
  rw [if_pos (by omega)]
  rw [show 47 - (47 - a.length) = a.length by omega]
  rw [memcpyAt_strBytes_fit, List.drop_replicate]

theorem appendCStr_small_spill {a b : List Nat} (σ : Nat) (hn : a.length < 47)
    (hb0 : ¬ b.length = 0) (hfit : ¬ (b.length < 47 - a.length)) :
    String.AppendCStr (.small (strBytes a ++ List.replicate (46 - a.length) (some 0))
        (lsbRaw (47 - a.length) true)) (some b) σ =
      (.normal (some σ) (strBytes (a ++ b) ++ List.replicate (a.length + b.length) none)
        ((a.length + b.length) * 2 + 1) (lsbRaw (a.length + b.length) false), σ + 1) := by
  simp only [String.AppendCStr]
  rw [if_neg hb0]
  simp only [GetSize_small, lsbValue_lsbRaw]
  rw [if_neg (by omega)]
  rw [show 47 - (47 - a.length) = a.length by omega]
  simp only [String.ReallocateAndCopy, String.readBuf]
  rw [take_strBytes_append]
  rw [spill_blk]

theorem appendCStr_large_spill {a b : List Nat} (q σ : Nat)
    (hb0 : ¬ b.length = 0) (hcap : a.length + b.length + 1 > a.length + 1) :
    String.AppendCStr (.normal (some q) (strBytes a) (a.length + 1) (lsbRaw a.length false))
        (some b) σ =
      (.normal (some σ) (strBytes (a ++ b) ++ List.replicate (a.length + b.length) none)
        ((a.length + b.length) * 2 + 1) (lsbRaw (a.length + b.length) false), σ + 1) := by
  simp only [String.AppendCStr]
  rw [if_neg hb0]
  simp only [GetSize_normal, lsbValue_lsbRaw]
  rw [if_pos hcap]
  simp only [String.ReallocateAndCopy, String.readBuf]
  rw [show (strBytes a).take a.length = a.map some by
    rw [← List.append_nil (strBytes a)]; exact take_strBytes_append a []]
  rw [spill_blk]

/-- C1: for all byte sequences `a` and `b`, constructing a `String` from `a`
and appending `b` yields `CStr()` text equal to `a ++ b` and `GetSize()` equal
to `length a + length b`. -/
theorem claim_C1_append_composition (a b : List Nat) (σ : Nat)
    (ha : ∀ x ∈ a, x ≠ 0) (hb : ∀ x ∈ b, x ≠ 0) :
    (String.AppendCStr (String.fromCStr (some a) σ).1 (some b)
        (String.fromCStr (some a) σ).2).1.CStrText = some (a ++ b) ∧
    (String.AppendCStr (String.fromCStr (some a) σ).1 (some b)
        (String.fromCStr (some a) σ).2).1.GetSize = a.length + b.length := by
  have hab : ∀ x ∈ a ++ b, x ≠ 0 := by
    intro x hx
    rcases List.mem_append.mp hx with h | h
    · exact ha x h
    · exact hb x h
  by_cases hb0 : b.length = 0
  · have hbe : b = [] := List.length_eq_zero.mp hb0
    subst hbe
    simp only [String.AppendCStr, List.length_nil, if_pos rfl, List.append_nil]
    exact ⟨CStrText_of_fromCStr σ ha, GetSize_of_fromCStr a σ⟩
  · by_cases hn : a.length < 47
    · rw [fromCStr_small σ hn]
      dsimp only
      by_cases hfit : b.length < 47 - a.length
      · rw [appendCStr_small_fit σ hn hb0 hfit]
        refine ⟨takeCStr_strBytes_append hab _, ?_⟩
        rw [GetSize_small, lsbValue_lsbRaw]
        omega
      · rw [appendCStr_small_spill σ hn hb0 hfit]
        refine ⟨takeCStr_strBytes_append hab _, ?_⟩
        rw [GetSize_normal, lsbValue_lsbRaw]
    · rw [fromCStr_large σ (by omega)]
      dsimp only
      rw [appendCStr_large_spill σ (σ + 1) hb0 (by omega)]
      refine ⟨takeCStr_strBytes_append hab _, ?_⟩
      rw [GetSize_normal, lsbValue_lsbRaw]

/-- C1 witness at `a = [72, 105]`, `b = [33]`. -/
theorem claim_C1_witness :
    (∀ x ∈ [72, 105], x ≠ 0) ∧ (∀ x ∈ [33], x ≠ 0) ∧
    ((String.AppendCStr (String.fromCStr (some [72, 105]) 0).1 (some [33])
        (String.fromCStr (some [72, 105]) 0).2).1.CStrText = some ([72, 105] ++ [33]) ∧
     (String.AppendCStr (String.fromCStr (some [72, 105]) 0).1 (some [33])
        (String.fromCStr (some [72, 105]) 0).2).1.GetSize = [72, 105].length + [33].length) :=
  ⟨by decide, by decide, claim_C1_append_composition [72, 105] [33] 0 (by decide) (by decide)⟩

/-- C5 witness at lengths 46 and 47. -/
theorem claim_C5_witness :
    ((List.replicate 46 65).length = 46 ∧
      (String.fromCStr (some (List.replicate 46 65)) 0).1.IsSmall = true) ∧
    (47 ≤ (List.replicate 47 65).length ∧
      ((String.fromCStr (some (List.replicate 47 65)) 0).1.IsSmall = false ∧
       (String.fromCStr (some (List.replicate 47 65)) 0).1 =
         .normal (some 0) (strBytes (List.replicate 47 65))
           ((List.replicate 47 65).length + 1) (lsbRaw (List.replicate 47 65).length false))) :=
  ⟨⟨by decide, (claim_C5_mode_boundary (List.replicate 46 65) 0).1 (by decide)⟩,
   ⟨by decide, (claim_C5_mode_boundary (List.replicate 47 65) 0).2 (by decide)⟩⟩

/-! ## Move semantics -/

/-- C8: move construction from a Large source transfers pointer, block,
capacity and length unchanged, and resets the source to zero length, zero
capacity and a null pointer, whose destructor then releases nothing. -/
theorem claim_C8_move_transfer (a : Nat) (blk : List Cell) (cap sz : Nat) :
    (String.moveCtor (.normal (some a) blk cap sz)).1
        = .normal (some a) blk cap (lsbRaw (lsbValue sz) false) ∧
    (String.moveCtor (.normal (some a) blk cap sz)).1.CStr
        = (String.normal (some a) blk cap sz).CStr ∧
    (String.moveCtor (.normal (some a) blk cap sz)).1.GetSize
        = (String.normal (some a) blk cap sz).GetSize ∧
    (String.moveCtor (.normal (some a) blk cap sz)).1.capacityOf = some cap ∧
    (String.moveCtor (.normal (some a) blk cap sz)).2.GetSize = 0 ∧
    (String.moveCtor (.normal (some a) blk cap sz)).2.capacityOf = some 0 ∧
    (String.moveCtor (.normal (some a) blk cap sz)).2.CStr = CPtr.nullPtr ∧
    (String.moveCtor (.normal (some a) blk cap sz)).2.destructorFrees = false := by
  refine ⟨rfl, rfl, ?_, rfl, rfl, rfl, rfl, rfl⟩
  show lsbValue (lsbRaw (lsbValue sz) false) = lsbValue sz
  exact lsbValue_lsbRaw _ _

/-- C10: after move construction or move assignment from a Large-mode source,
the moved-from source's `CStr()` is a null pointer — not a pointer to an empty
string, so reading it as a C string is invalid — while `GetSize()` is 0. -/
theorem claim_C10_moved_from_reads_null (p : Option Nat) (blk : List Cell)
    (cap sz : Nat) (y : String) :
    ((String.moveCtor (.normal p blk cap sz)).2.CStr = CPtr.nullPtr ∧
     (String.moveCtor (.normal p blk cap sz)).2.GetSize = 0 ∧
     (String.moveCtor (.normal p blk cap sz)).2.CStrText = none) ∧
    ((String.moveAssign y (.normal p blk cap sz)).2.CStr = CPtr.nullPtr ∧
     (String.moveAssign y (.normal p blk cap sz)).2.GetSize = 0 ∧
     (String.moveAssign y (.normal p blk cap sz)).2.CStrText = none) :=
  ⟨⟨rfl, rfl, rfl⟩, ⟨rfl, rfl, rfl⟩⟩

/-! ## Deep copy -/

/-- C7: copy construction preserves the text; for a Large source whose block id
predates the fresh id `σ`, the copy's `CStr()` is a different pointer (fresh
block) with the same capacity as the source's. -/
theorem claim_C7_copy_is_deep (x : String) (σ : Nat) (hwf : x.WF) :
    (String.copyCtor x σ).1.CStrText = x.CStrText ∧
    (∀ a, x.CStr = CPtr.heapPtr a → a < σ →
      (String.copyCtor x σ).1.CStr = CPtr.heapPtr σ ∧
      (String.copyCtor x σ).1.CStr ≠ x.CStr ∧
      (String.copyCtor x σ).1.capacityOf = x.capacityOf) := by
  cases x with
  | small sbo rs =>
    refine ⟨rfl, fun a ha => ?_⟩
    exact absurd ha (by simp [String.CStr])
  | normal p blk cap sz =>
    obtain ⟨hp, hlen, hcap, hterm⟩ := hwf
    obtain ⟨q, rfl⟩ := Option.isSome_iff_exists.mp hp
    have hread : (String.normal (some q) blk cap sz).readBuf (lsbValue sz + 1)
        = blk.take (lsbValue sz + 1) := rfl
    have hblk : memcpyAt (List.replicate cap none) 0 (blk.take (lsbValue sz + 1))
        = blk.take (lsbValue sz + 1) ++ List.replicate (cap - (lsbValue sz + 1)) none := by
      rw [memcpyAt_zero_replicate]
      congr 2
      simp
      omega
    constructor
    · show takeCStr (memcpyAt (List.replicate cap none) 0
        ((String.normal (some q) blk cap sz).readBuf (lsbValue sz + 1))) = takeCStr blk
      rw [hread, hblk]
      have htake : (blk.take (lsbValue sz + 1)).length = lsbValue sz + 1 := by
        simp
        omega
      refine @takeCStr_eq_of_take_eq _ _ (lsbValue sz) ?_ ?_ ?_
      · simp
        omega
      · rw [List.take_append_of_le_length (by omega), List.take_take]
        simp
      · rw [List.getD_eq_getElem?_getD, List.getElem?_append_left (by omega),
          List.getElem?_take]
        rw [if_pos (by omega), ← List.getD_eq_getElem?_getD]
        exact hterm
    · intro a ha _hlt
      have haq : q = a := by
        simpa [String.CStr, CPtr.heapPtr.injEq] using ha
      subst haq
      refine ⟨rfl, ?_, rfl⟩
      show CPtr.heapPtr σ ≠ CPtr.heapPtr q
      simp only [ne_eq, CPtr.heapPtr.injEq]
      omega


/-- Growth-trigger condition of an append of `m` incoming bytes. -/
def String.spills (x : String) (m : Nat) : Prop :=
  match x with
  | .small _ rs => ¬ (m < lsbValue rs)
  | .normal _ _ cap sz => lsbValue sz + m + 1 > cap

instance (x : String) (m : Nat) : Decidable (x.spills m) := by
  cases x <;> · dsimp [String.spills]; infer_instance

theorem claim_C6_growth (x y : String) (c d b : List Nat) (σ : Nat)
    (hwf : x.WF) (hc : x.readBuf x.GetSize = c.map some)
    (hywf : y.WF) (hd : y.readBuf (y.GetSize + 1) = strBytes d) :
    (x.spills b.length → ¬ b.length = 0 →
      (String.AppendCStr x (some b) σ).1 =
        .normal (some σ) (strBytes (c ++ b) ++ List.replicate (c.length + b.length) none)
          ((c.length + b.length) * 2 + 1) (lsbRaw (c.length + b.length) false)) ∧
    (x.spills y.GetSize →
      (String.AppendStr x y σ).1 =
        .normal (some σ) (strBytes (c ++ d) ++ List.replicate (c.length + d.length) none)
          ((c.length + d.length) * 2 + 1) (lsbRaw (c.length + d.length) false)) := by
  have hdlen : d.length = y.GetSize := by
    have hlenrb := congrArg List.length hd
    rw [strBytes_length] at hlenrb
    cases y with
    | small sbo rs =>
      obtain ⟨hl, h1, h47, _⟩ := hywf
      rw [GetSize_small] at hlenrb ⊢
      simp [String.readBuf, hl, sboSize] at hlenrb
      omega
    | normal p blk cap sz =>
      obtain ⟨hp, hl, hcap, _⟩ := hywf
      obtain ⟨q, rfl⟩ := Option.isSome_iff_exists.mp hp
      rw [GetSize_normal] at hlenrb ⊢
      simp [String.readBuf, hl, sboSize] at hlenrb
      omega
  constructor
  · intro hsp hb0
    cases x with
    | small sbo rs =>
      obtain ⟨hlen, hr1, hr47, hterm⟩ := hwf
      rw [show sboSize - 1 = 47 from rfl] at hlen hr47
      rw [GetSize_small] at hc
      have hcl : c.length = 47 - lsbValue rs := by
        have h := congrArg List.length hc
        simp [String.readBuf, hlen, sboSize] at h
        omega
      dsimp only [String.spills] at hsp
      simp only [String.AppendCStr]
      rw [if_neg hb0]
      simp only [GetSize_small]
      rw [if_neg hsp]
      simp only [String.ReallocateAndCopy]
      rw [hc, ← hcl]
      rw [spill_blk]
    | normal p blk cap sz =>
      obtain ⟨hp, hlen, hcap, hterm⟩ := hwf
      rw [GetSize_normal] at hc
      have hcl : c.length = lsbValue sz := by
        have h := congrArg List.length hc
        obtain ⟨q, rfl⟩ := Option.isSome_iff_exists.mp hp
        simp [String.readBuf, hlen, sboSize] at h
        omega
      dsimp only [String.spills] at hsp
      simp only [String.AppendCStr]
      rw [if_neg hb0]
      simp only [GetSize_normal]
      rw [if_pos (by omega)]
      simp only [String.ReallocateAndCopy]
      rw [hc, ← hcl]
      rw [spill_blk]
  · intro hsp
    cases x with
    | small sbo rs =>
      obtain ⟨hlen, hr1, hr47, hterm⟩ := hwf
      rw [show sboSize - 1 = 47 from rfl] at hlen hr47
      rw [GetSize_small] at hc
      have hcl : c.length = 47 - lsbValue rs := by
        have h := congrArg List.length hc
        simp [String.readBuf, hlen, sboSize] at h
        omega
      dsimp only [String.spills] at hsp
      simp only [String.AppendStr]
      simp only [GetSize_small]
      rw [if_neg hsp]
      simp only [String.ReallocateAndCopy]
      rw [hd, hc, ← hcl, ← hdlen]
      rw [spill_blk]
    | normal p blk cap sz =>
      obtain ⟨hp, hlen, hcap, hterm⟩ := hwf
      rw [GetSize_normal] at hc
      have hcl : c.length = lsbValue sz := by
        have h := congrArg List.length hc
        obtain ⟨q, rfl⟩ := Option.isSome_iff_exists.mp hp
        simp [String.readBuf, hlen] at h
        omega
      dsimp only [String.spills] at hsp
      simp only [String.AppendStr]
      simp only [GetSize_normal]
      rw [if_pos (by omega)]
      simp only [String.ReallocateAndCopy]
      rw [hd, hc, ← hcl, ← hdlen]
      rw [spill_blk]


end NGIN.Containers

namespace NGIN.Containers

theorem getD_strBytes_append_len (s : List Nat) (R : List Cell) :
    (strBytes s ++ R).getD s.length none = some 0 := by
  rw [List.getD_eq_getElem?_getD]
  rw [List.getElem?_append_left (by simp [strBytes_length])]
  unfold strBytes
  rw [List.getElem?_append_right (by simp)]
  simp

theorem getD_strBytes_len (s : List Nat) :
    (strBytes s).getD s.length none = some 0 := by
  rw [← List.append_nil (strBytes s)]
  exact getD_strBytes_append_len s []

/-- Packaging of the `WF` conjunction for a heap state with a `Set`-written flag. -/
theorem WF_build_normal {B : List Cell} {cap t σ : Nat}
    (h1 : B.length = cap) (h2 : t + 1 ≤ cap) (h3 : B.getD t none = some 0) :
    (String.normal (some σ) B cap (lsbRaw t false)).WF := by
  refine ⟨rfl, h1, ?_, ?_⟩
  · rw [lsbValue_lsbRaw]; omega
  · rw [lsbValue_lsbRaw]; exact h3

/-- Packaging of the `WF` conjunction for an SBO state with a `Set`-written flag. -/
theorem WF_build_small {B : List Cell} {r : Nat}
    (h1 : B.length = 47) (h2 : 1 ≤ r) (h3 : r ≤ 47)
    (h4 : B.getD (47 - r) none = some 0) :
    (String.small B (lsbRaw r true)).WF := by
  refine ⟨by rw [show sboSize - 1 = 47 from rfl]; exact h1, ?_, ?_, ?_⟩
  · rw [lsbValue_lsbRaw]; exact h2
  · rw [lsbValue_lsbRaw, show sboSize - 1 = 47 from rfl]; exact h3
  · rw [lsbValue_lsbRaw, show sboSize - 1 = 47 from rfl]; exact h4

theorem wf_mkEmpty : String.mkEmpty.WF := by decide

theorem wf_fromCStr (str : Option (List Nat)) (σ : Nat) :
    (String.fromCStr str σ).1.WF := by
  match str with
  | none => exact wf_mkEmpty
  | some s =>
    by_cases hlen : s.length < 47
    · rw [fromCStr_small σ hlen]
      refine WF_build_small ?_ (by omega) (by omega) ?_
      · simp [strBytes_length]
        omega
      · rw [show 47 - (47 - s.length) = s.length by omega]
        exact getD_strBytes_append_len s _
    · rw [fromCStr_large σ (by omega)]
      refine WF_build_normal ?_ (by omega) ?_
      · rw [strBytes_length]
      · exact getD_strBytes_len s

theorem wf_moveDst {x : String} (h : x.WF) : (String.moveCtor x).1.WF := by
  cases x with
  | small sbo rs => exact h
  | normal p blk cap sz =>
    obtain ⟨hp, h1, h2, h3⟩ := h
    exact ⟨hp, h1, by rw [lsbValue_lsbRaw]; exact h2, by rw [lsbValue_lsbRaw]; exact h3⟩

theorem wf_copyCtor {x : String} (σ : Nat) (h : x.WF) : (String.copyCtor x σ).1.WF := by
  cases x with
  | small sbo rs => exact h
  | normal p blk cap sz =>
    obtain ⟨hp, h1, h2, h3⟩ := h
    obtain ⟨q, rfl⟩ := Option.isSome_iff_exists.mp hp
    show (String.normal (some σ) (memcpyAt (List.replicate cap none) 0
      (blk.take (lsbValue sz + 1))) cap (lsbRaw (lsbValue sz) false)).WF
    refine WF_build_normal ?_ h2 ?_
    · rw [memcpyAt_length]
      · simp
      · simp
        omega
    · rw [List.getD_eq_getElem?_getD, memcpyAt_zero, List.getElem?_append_left
        (by simp; omega), List.getElem?_take, if_pos (by omega),
        ← List.getD_eq_getElem?_getD]
      exact h3

end NGIN.Containers

namespace NGIN.Containers

theorem readBuf_props {y : String} (hy : y.WF) :
    (y.readBuf (y.GetSize + 1)).length = y.GetSize + 1 ∧
    (y.readBuf (y.GetSize + 1)).getD y.GetSize none = some 0 := by
  cases y with
  | small sbo rs =>
    obtain ⟨h1, h2, h3, h4⟩ := hy
    rw [show sboSize - 1 = 47 from rfl] at h1 h4
    rw [GetSize_small]
    constructor
    · simp [String.readBuf, h1]
      omega
    · show (sbo.take (47 - lsbValue rs + 1)).getD (47 - lsbValue rs) none = some 0
      rw [List.getD_eq_getElem?_getD, List.getElem?_take, if_pos (by omega),
        ← List.getD_eq_getElem?_getD]
      exact h4
  | normal p blk cap sz =>
    obtain ⟨hp, h1, h2, h3⟩ := hy
    obtain ⟨q, rfl⟩ := Option.isSome_iff_exists.mp hp
    rw [GetSize_normal]
    constructor
    · simp [String.readBuf, h1]
      omega
    · show (blk.take (lsbValue sz + 1)).getD (lsbValue sz) none = some 0
      rw [List.getD_eq_getElem?_getD, List.getElem?_take, if_pos (by omega),
        ← List.getD_eq_getElem?_getD]
      exact h3

/-- Appending the cells `src` (length `k + 1`, terminator at `k`) to a WF small
state, in the fitting branch. -/
theorem wf_small_fit {sbo : List Cell} {rs : Nat} {src : List Cell} {k : Nat}
    (h1 : sbo.length = sboSize - 1) (h2 : 1 ≤ lsbValue rs) (h3 : lsbValue rs ≤ sboSize - 1)
    (hsl : src.length = k + 1) (hst : src.getD k none = some 0)
    (hfit : k < lsbValue rs) :
    (String.small (memcpyAt sbo (47 - lsbValue rs) src)
      (lsbRaw (lsbValue rs - k) true)).WF := by
  rw [show sboSize - 1 = 47 from rfl] at h1 h3
  refine WF_build_small ?_ (by omega) (by omega) ?_
  · rw [memcpyAt_length (by omega)]
    exact h1
  · rw [show 47 - (lsbValue rs - k) = (47 - lsbValue rs) + k by omega]
    rw [memcpyAt_getD_src none (by omega) (by omega)]
    exact hst

/-- The state built by `ReallocateAndCopy` followed by the incoming `memcpy`
and the final `sizeFlag.Set`, for any source buffer read of length `n`. -/
theorem wf_spill {x : String} {src : List Cell} {n k σ : Nat}
    (hn : (x.readBuf n).length = n)
    (hsl : src.length = k + 1) (hst : src.getD k none = some 0) :
    (String.normal (some σ)
      (memcpyAt (memcpyAt (List.replicate ((n + k) * 2 + 1) none) 0 (x.readBuf n)) n src)
      ((n + k) * 2 + 1) (lsbRaw (n + k) false)).WF := by
  have hb0 : (memcpyAt (List.replicate ((n + k) * 2 + 1) none) 0 (x.readBuf n)).length
      = (n + k) * 2 + 1 := by
    rw [memcpyAt_length (by simp [hn]; omega)]
    simp
  refine WF_build_normal ?_ (by omega) ?_
  · rw [memcpyAt_length (by rw [hb0]; omega)]
    exact hb0
  · rw [memcpyAt_getD_src none (by omega) (by omega)]
    exact hst

end NGIN.Containers

namespace NGIN.Containers

theorem wf_appendCStr {x : String} (str : Option (List Nat)) (σ : Nat) (h : x.WF) :
    (String.AppendCStr x str σ).1.WF := by
  match str with
  | none => exact h
  | some s =>
    by_cases hs0 : s.length = 0
    · simp only [String.AppendCStr, if_pos hs0]
      exact h
    · cases x with
      | small sbo rs =>
        obtain ⟨h1, h2, h3, h4⟩ := h
        simp only [String.AppendCStr]
        rw [if_neg hs0]
        simp only [GetSize_small]
        by_cases hfit : s.length < lsbValue rs
        · rw [if_pos hfit]
          exact wf_small_fit h1 h2 h3 (strBytes_length s) (getD_strBytes_len s) hfit
        · rw [if_neg hfit]
          simp only [String.ReallocateAndCopy]
          refine wf_spill ?_ (strBytes_length s) (getD_strBytes_len s)
          rw [show sboSize - 1 = 47 from rfl] at h1 h3
          simp [String.readBuf, h1]
      | normal p blk cap sz =>
        obtain ⟨hp, h1, h2, h3⟩ := h
        obtain ⟨q, rfl⟩ := Option.isSome_iff_exists.mp hp
        simp only [String.AppendCStr]
        rw [if_neg hs0]
        simp only [GetSize_normal]
        by_cases hcap : lsbValue sz + s.length + 1 > cap
        · rw [if_pos hcap]
          simp only [String.ReallocateAndCopy]
          refine wf_spill ?_ (strBytes_length s) (getD_strBytes_len s)
          simp [String.readBuf, h1]
          omega
        · rw [if_neg hcap]
          refine WF_build_normal ?_ (by omega) ?_
          · rw [memcpyAt_length (by rw [strBytes_length]; omega)]
            exact h1
          · rw [memcpyAt_getD_src none (by omega) (by rw [strBytes_length]; omega)]
            exact getD_strBytes_len s

theorem wf_appendStr {x y : String} (σ : Nat) (hx : x.WF) (hy : y.WF) :
    (String.AppendStr x y σ).1.WF := by
  obtain ⟨hyl, hyt⟩ := readBuf_props hy
  cases x with
  | small sbo rs =>
    obtain ⟨h1, h2, h3, h4⟩ := hx
    simp only [String.AppendStr]
    simp only [GetSize_small]
    by_cases hfit : y.GetSize < lsbValue rs
    · rw [if_pos hfit]
      exact wf_small_fit h1 h2 h3 hyl hyt hfit
    · rw [if_neg hfit]
      simp only [String.ReallocateAndCopy]
      refine wf_spill ?_ hyl hyt
      rw [show sboSize - 1 = 47 from rfl] at h1 h3
      simp [String.readBuf, h1]
  | normal p blk cap sz =>
    obtain ⟨hp, h1, h2, h3⟩ := hx
    obtain ⟨q, rfl⟩ := Option.isSome_iff_exists.mp hp
    simp only [String.AppendStr]
    simp only [GetSize_normal]
    by_cases hcap : lsbValue sz + y.GetSize + 1 > cap
    · rw [if_pos hcap]
      simp only [String.ReallocateAndCopy]
      refine wf_spill ?_ hyl hyt
      simp [String.readBuf, h1]
      omega
    · rw [if_neg hcap]
      refine WF_build_normal ?_ (by omega) ?_
      · rw [memcpyAt_length (by rw [hyl]; omega)]
        exact h1
      · rw [memcpyAt_getD_src none (by omega) (by rw [hyl]; omega)]
        exact hyt

end NGIN.Containers

namespace NGIN.Containers

/-- States reachable through the public operations, excluding the two aliasing
situations the code mishandles: moved-from Large sources (their `CStr()` is a
null pointer) and the aliased self-append `x.Append(x)`. -/
inductive Reached : String → Prop where
  | construct0 : Reached String.mkEmpty
  | constructC (str : Option (List Nat)) (σ : Nat) : Reached (String.fromCStr str σ).1
  | copyC (x : String) (σ : Nat) : Reached x → Reached (String.copyCtor x σ).1
  | moveDst (x : String) : Reached x → Reached (String.moveCtor x).1
  | appC (x : String) (str : Option (List Nat)) (σ : Nat) :
      Reached x → Reached (String.AppendCStr x str σ).1
  | appS (x y : String) (σ : Nat) :
      Reached x → Reached y → Reached (String.AppendStr x y σ).1

theorem nullTerm_of_wf {s : String} (h : s.WF) : s.NullTerm = true := by
  cases s with
  | small sbo rs =>
    obtain ⟨_, _, _, h4⟩ := h
    simp only [String.NullTerm, beq_iff_eq]
    exact h4
  | normal p blk cap sz =>
    obtain ⟨hp, _, _, h3⟩ := h
    simp only [String.NullTerm, hp, Bool.true_and, beq_iff_eq]
    exact h3

/-- C3 (amended): every `String` reachable by construction, copy construction,
move construction (destination side), and appends of C strings or of distinct
`String`s holds a NUL terminator at offset `GetSize()` of its active buffer.
Moved-from Large sources and the aliased self-append are excluded: the former
have a null `CStr()` with no buffer at all (see the counterexample), the latter
loses its terminator on the growth path (claim C4). -/
theorem claim_C3_null_terminated_reachable :
    ∀ s : String, Reached s → s.NullTerm = true := by
  intro s h
  apply nullTerm_of_wf
  induction h with
  | construct0 => exact wf_mkEmpty
  | constructC str σ => exact wf_fromCStr str σ
  | copyC x σ _ ih => exact wf_copyCtor σ ih
  | moveDst x _ ih => exact wf_moveDst ih
  | appC x str σ _ ih => exact wf_appendCStr str σ ih
  | appS x y σ _ _ ihx ihy => exact wf_appendStr σ ihx ihy

/-- C3 witness: the empty string is reachable and null-terminated. -/
theorem claim_C3_witness : String.mkEmpty.NullTerm = true :=
  claim_C3_null_terminated_reachable String.mkEmpty Reached.construct0

/-- C3 counterexample to the claim as stated: the moved-from source of a move
from a reachable Large string (length 60) is itself reached by a public move
operation, yet `CStr()` is a null pointer and no byte at offset `GetSize()`
is a terminator. -/
theorem claim_C3_counterexample :
    (String.moveCtor (String.fromCStr (some (List.replicate 60 88)) 0).1).2.NullTerm = false ∧
    (String.moveCtor (String.fromCStr (some (List.replicate 60 88)) 0).1).2.CStr
      = CPtr.nullPtr := by
  decide

/-- C4: evaluation of the aliased self-append `x.Append(x)`.  The spec's
concrete instance holds: `x = "Self"` (bytes `[83, 101, 108, 102]`) stays in
the SBO fitting path and yields `"SelfSelf"`, size 8 — though even this path
calls `memcpy` with source and destination overlapping in one byte, here
modelled charitably as load-before-store.  The general statement fails: a
24-byte string spills to the heap, and `other.CStr()` is read *after*
`ReallocateAndCopy` replaced the buffer, so the new terminator byte at offset
48 is copied from an uninitialized cell — the result is not null-terminated
and its `CStr()` text is not the content doubled. -/
theorem claim_C4_self_append_evaluated :
    ((String.AppendSelf (String.fromCStr (some [83, 101, 108, 102]) 0).1 0).1.CStrText
        = some [83, 101, 108, 102, 83, 101, 108, 102] ∧
     (String.AppendSelf (String.fromCStr (some [83, 101, 108, 102]) 0).1 0).1.GetSize = 8) ∧
    ((String.AppendSelf (String.fromCStr (some (List.replicate 24 65)) 0).1 0).1.GetSize = 48 ∧
     (String.AppendSelf (String.fromCStr (some (List.replicate 24 65)) 0).1 0).1.NullTerm
        = false ∧
     (String.AppendSelf (String.fromCStr (some (List.replicate 24 65)) 0).1 0).1.CStrText
        = none) := by
  decide

end NGIN.Containers

namespace NGIN.Utilities

/-- C9: for a `w`-bit unsigned word type, `LSBFlag(value, flag)` stores
`(value << 1) | flag` reduced modulo `2^w`; `GetValue()` returns
`value mod 2^(w-1)` and `GetFlag()` returns `flag` — a value using the
reserved top bit is silently truncated, never rejected. -/
theorem claim_C9_lsbflag_truncates (w v : Nat) (b : Bool) (hw : 1 ≤ w) (hv : v < 2 ^ w) :
    (LSBFlag.init w v b).GetRaw = ((v <<< 1) ||| b.toNat) % 2 ^ w ∧
    (LSBFlag.init w v b).GetValue = v % 2 ^ (w - 1) ∧
    (LSBFlag.init w v b).GetFlag = b := by
  have hk : 2 ^ w = 2 * 2 ^ (w - 1) := by
    rw [← pow_succ']
    congr 1
    omega
  have hsh : v <<< 1 = 2 * v := by rw [Nat.shiftLeft_eq]; ring
  have hmm : (2 * v) % (2 * 2 ^ (w - 1)) = 2 * (v % 2 ^ (w - 1)) := Nat.mul_mod_mul_left 2 v _
  have hb : b.toNat ≤ 1 := Bool.toNat_le b
  have hklt : v % 2 ^ (w - 1) < 2 ^ (w - 1) :=
    Nat.mod_lt _ (Nat.pos_pow_of_pos _ (by norm_num))
  refine ⟨?_, ?_, ?_⟩
  · show ((v <<< 1) % 2 ^ w) ||| b.toNat = ((v <<< 1) ||| b.toNat) % 2 ^ w
    rw [hsh, hk, hmm, Containers.or_toNat, Containers.or_toNat]
    have h1 : (2 * v + b.toNat) % (2 * 2 ^ (w - 1)) = 2 * (v % 2 ^ (w - 1)) + b.toNat := by
      have hbm : b.toNat % (2 * 2 ^ (w - 1)) = b.toNat := Nat.mod_eq_of_lt (by omega)
      conv_lhs => rw [Nat.add_mod, hmm]
      rw [hbm, Nat.mod_eq_of_lt (by omega)]
    omega
  · show (((v <<< 1) % 2 ^ w) ||| b.toNat) >>> 1 = v % 2 ^ (w - 1)
    rw [hsh, hk, hmm, Containers.or_toNat, Nat.shiftRight_eq_div_pow, pow_one]
    cases b
    · simp
    · simp
      omega
  · show ((((v <<< 1) % 2 ^ w) ||| b.toNat) &&& 1 != 0) = b
    rw [hsh, hk, hmm, Containers.or_toNat, Nat.and_one_is_mod]
    cases b
    · simp [Nat.mul_mod_right]
    · simp
      omega

/-- C9 witness at `w = 8`, `v = 200`, `flag = true`: `200` uses the reserved
bit of a `uint8_t`, so `GetValue()` reads back `200 mod 128 = 72`. -/
theorem claim_C9_witness :
    1 ≤ 8 ∧ 200 < 2 ^ 8 ∧
    ((LSBFlag.init 8 200 true).GetRaw = ((200 <<< 1) ||| Bool.toNat true) % 2 ^ 8 ∧
     (LSBFlag.init 8 200 true).GetValue = 200 % 2 ^ (8 - 1) ∧
     (LSBFlag.init 8 200 true).GetFlag = true) :=
  ⟨by decide, by decide, claim_C9_lsbflag_truncates 8 200 true (by decide) (by decide)⟩

end NGIN.Utilities

namespace NGIN.Containers

set_option maxRecDepth 4000 in
/-- C7 witness: a Large string of 60 `'X'`s (block id 0), copied with fresh id 1. -/
theorem claim_C7_witness :
    (String.fromCStr (some (List.replicate 60 88)) 0).1.WF ∧
    ((String.copyCtor (String.fromCStr (some (List.replicate 60 88)) 0).1 1).1.CStrText
        = (String.fromCStr (some (List.replicate 60 88)) 0).1.CStrText ∧
     ((String.copyCtor (String.fromCStr (some (List.replicate 60 88)) 0).1 1).1.CStr
        = CPtr.heapPtr 1 ∧
      (String.copyCtor (String.fromCStr (some (List.replicate 60 88)) 0).1 1).1.CStr
        ≠ (String.fromCStr (some (List.replicate 60 88)) 0).1.CStr ∧
      (String.copyCtor (String.fromCStr (some (List.replicate 60 88)) 0).1 1).1.capacityOf
        = (String.fromCStr (some (List.replicate 60 88)) 0).1.capacityOf)) :=
  ⟨by decide,
   (claim_C7_copy_is_deep _ 1 (by decide)).1,
   (claim_C7_copy_is_deep _ 1 (by decide)).2 0 (by decide) (by decide)⟩

set_option maxRecDepth 8000 in
/-- C6 witness: an 11-byte SBO string grown by a 60-byte C-string append
(capacity becomes `71 * 2 + 1 = 143`), and by appending a 40-byte `String`
(capacity becomes `51 * 2 + 1 = 103`); the tails beyond the terminator stay
uninitialized — only the live bytes were copied. -/
theorem claim_C6_witness :
    ((String.fromCStr (some (List.replicate 11 66)) 0).1.spills (List.replicate 60 88).length ∧
     ¬ (List.replicate 60 88).length = 0 ∧
     (String.AppendCStr (String.fromCStr (some (List.replicate 11 66)) 0).1
        (some (List.replicate 60 88)) 0).1 =
       .normal (some 0)
         (strBytes (List.replicate 11 66 ++ List.replicate 60 88) ++
           List.replicate ((List.replicate 11 66 : List Nat).length
             + (List.replicate 60 88 : List Nat).length) none)
         (((List.replicate 11 66 : List Nat).length
             + (List.replicate 60 88 : List Nat).length) * 2 + 1)
         (lsbRaw ((List.replicate 11 66 : List Nat).length
             + (List.replicate 60 88 : List Nat).length) false)) ∧
    ((String.fromCStr (some (List.replicate 11 66)) 0).1.spills
        (String.fromCStr (some (List.replicate 40 88)) 0).1.GetSize ∧
     (String.AppendStr (String.fromCStr (some (List.replicate 11 66)) 0).1
        (String.fromCStr (some (List.replicate 40 88)) 0).1 0).1 =
       .normal (some 0)
         (strBytes (List.replicate 11 66 ++ List.replicate 40 88) ++
           List.replicate ((List.replicate 11 66 : List Nat).length
             + (List.replicate 40 88 : List Nat).length) none)
         (((List.replicate 11 66 : List Nat).length
             + (List.replicate 40 88 : List Nat).length) * 2 + 1)
         (lsbRaw ((List.replicate 11 66 : List Nat).length
             + (List.replicate 40 88 : List Nat).length) false)) :=
  ⟨⟨by decide, by decide,
    (claim_C6_growth (String.fromCStr (some (List.replicate 11 66)) 0).1
        (String.fromCStr (some (List.replicate 40 88)) 0).1
        (List.replicate 11 66) (List.replicate 40 88) (List.replicate 60 88) 0
        (by decide) (by decide) (by decide) (by decide)).1 (by decide) (by decide)⟩,
   ⟨by decide,
    (claim_C6_growth (String.fromCStr (some (List.replicate 11 66)) 0).1
        (String.fromCStr (some (List.replicate 40 88)) 0).1
        (List.replicate 11 66) (List.replicate 40 88) (List.replicate 60 88) 0
        (by decide) (by decide) (by decide) (by decide)).2 (by decide)⟩⟩

end NGIN.Containers
